import Mathlib

/-!
# PantryPal — transactional billing and stock-reconciliation engine

A shallow embedding of the core engine of the PantryPal point-of-sale
platform: bill lifecycle (creation, item accumulation, finalization),
atomic stock decrement, payment settlement, subscription-plan quota
enforcement, and the single-use onboarding-token exchange.

The repository ships the engine's integration tests
(`tests/integration/checkout-api.spec.ts`, `scanCheckoutFlow.test.ts`,
`endToEndBusinessFlow.test.ts`, `paymentGateway.test.ts`), its HTTP
surface documentation and its database migrations, but not the server
service modules themselves (`server/services/billingService`,
`server/routes` payment handlers, `server/services/authService`,
plan policy).  Those missing operations are therefore modelled from the
specification, with the tests fixing the concrete expected values
(rounding behaviour, plan limits, signature message format).

Money is represented in integer currency subunits (paise, hundredths
of the currency): amounts in the source are numbers kept to two decimal
places, so the paise grid is exact, and "rounded to currency precision"
becomes explicit half-up integer rounding of the percent divisions.
Stock quantities are integers so that the non-negativity invariant is a
real proof obligation, not a typing artifact.
-/

/-- Decidable equality of operation results, so that concrete runs of the
model can be checked by evaluation. -/
instance {ε α : Type} [DecidableEq ε] [DecidableEq α] : DecidableEq (Except ε α)
  | .ok a, .ok b =>
    if h : a = b then .isTrue (by rw [h]) else .isFalse (by intro hc; cases hc; exact h rfl)
  | .error a, .error b =>
    if h : a = b then .isTrue (by rw [h]) else .isFalse (by intro hc; cases hc; exact h rfl)
  | .ok _, .error _ => .isFalse (by intro hc; cases hc)
  | .error _, .ok _ => .isFalse (by intro hc; cases hc)

namespace PantryPal

/-- Modelled from the spec: the stable machine-readable error codes of the
engine's error taxonomy (spec §7) plus the per-operation failure codes of
§4.1–§4.5. -/
inductive Err where
  | ValidationError
  | BillAlreadyFinalized
  | ProductNotFound
  | EmptyBill
  | InsufficientStock (productId : String)
  | BillNotFinalized
  | AmountMismatch
  | UnsupportedMethod
  | MissingProviderReference
  | DuplicatePayment
  | InvalidSignature
  | SubscriptionAlreadyUsed
  | PlanLimitExceeded
  | NotFound
  deriving Repr, DecidableEq

/-- Modelled from the spec: HTTP status attached to each error code
(spec §6 and §7: StateConflict `SubscriptionAlreadyUsed` is 409,
NotFound 404, AuthFailure 401, business rejections 400). -/
def httpStatus : Err → Nat
  | .SubscriptionAlreadyUsed => 409
  | .NotFound => 404
  | .InvalidSignature => 400
  | _ => 400

/-- Modelled from the spec: `Bill.status ∈ {draft, finalized}`,
finalized being terminal (spec §3). -/
inductive BillStatus where
  | draft
  | finalized
  deriving Repr, DecidableEq

/-- Modelled from the spec: a bill line item — product reference,
quantity, unit price, line total (spec §3). -/
structure BillItem where
  product_id : String
  quantity : Nat
  unit_price : Int
  line_total : Int
  deriving Repr, DecidableEq

/-- Modelled from the spec: a Bill — ordered item collection, subtotal,
the validated discount/tax percentages, the frozen amounts, status and
finalization metadata (spec §3, §4.2). -/
structure Bill where
  id : String
  org_id : String
  status : BillStatus
  items : List BillItem
  subtotal : Int
  discount_percent : Int
  tax_percent : Int
  discount : Int
  tax : Int
  total : Int
  finalized_at : Option Nat
  finalized_by : Option String
  deriving Repr, DecidableEq

/-- Modelled from the spec: a Product with org-scoped identity, a price
and `quantity_in_stock`; the stock is an integer so that the
`quantity_in_stock >= 0` invariant (spec §3 invariant 3) is a proved
property of the operations rather than a consequence of the type. -/
structure Product where
  id : String
  org_id : String
  price : Int
  quantity_in_stock : Int
  deriving Repr, DecidableEq

/-- Modelled from the spec: `Payment.status ∈ {pending, completed, failed}`
(spec §3). -/
inductive PayStatus where
  | pending
  | completed
  | failed
  deriving Repr, DecidableEq

/-- Modelled from the spec: a Payment record, 1:1 with a finalized bill,
with method, amount, status, optional external transaction id and a
settlement timestamp (spec §3, §4.3). -/
structure Payment where
  bill_id : String
  amount : Int
  method : String
  provider_ref : Option String
  status : PayStatus
  settled_at : Nat
  deriving Repr, DecidableEq

/-- Modelled from the spec: the per-tenant engine state touched by the
checkout flow — the product catalog (StockLedger view), the bills
(BillLedger) and the payment records (PaymentProcessor). -/
structure CheckoutState where
  products : List Product
  bills : List Bill
  payments : List Payment
  deriving Repr, DecidableEq

/-- Rounding of a percent computation to currency precision: amounts are
integer paise and a percentage of an amount is `amount * percent / 100`,
rounded half-up to the nearest paise (exact on the values of
`checkout-api.spec.ts` BILL02 and the spec finalize scenario). -/
def roundPct (amount pct : Int) : Int := (amount * pct + 50).ediv 100

/-- Sum of `quantity * unit_price` over the items of a bill
(spec §3 invariant 1). -/
def subtotalOf (items : List BillItem) : Int :=
  items.foldr (fun it acc => (it.quantity : Int) * it.unit_price + acc) 0

/-- Total quantity billed for one product across the items of a bill. -/
def billedQty (items : List BillItem) (pid : String) : Nat :=
  items.foldr (fun it acc => (if it.product_id = pid then it.quantity else 0) + acc) 0

/-- Stock of the product with org-scoped identity `(pid, orgId)`:
first matching catalog entry, `none` when the product does not exist. -/
def stockOf : List Product → String → String → Option Int
  | [], _, _ => none
  | p :: ps, pid, orgId =>
    if p.id = pid ∧ p.org_id = orgId then some p.quantity_in_stock
    else stockOf ps pid orgId

/-- First matching catalog entry for `(pid, orgId)` as a full record. -/
def findProduct : List Product → String → String → Option Product
  | [], _, _ => none
  | p :: ps, pid, orgId =>
    if p.id = pid ∧ p.org_id = orgId then some p
    else findProduct ps pid orgId

/-- Modelled from the spec: `StockLedger.decrement(productId, orgId, qty)`
— a single atomic conditional update that succeeds only if the current
stock is at least the requested quantity, and applies no change on
failure (spec §4.1). -/
def decrement : List Product → String → String → Nat → Except Err (List Product)
  | [], _, _, _ => .error .ProductNotFound
  | p :: ps, pid, orgId, q =>
    if p.id = pid ∧ p.org_id = orgId then
      if (q : Int) ≤ p.quantity_in_stock then
        .ok ({ p with quantity_in_stock := p.quantity_in_stock - (q : Int) } :: ps)
      else .error (.InsufficientStock pid)
    else
      match decrement ps pid orgId q with
      | .ok ps2 => .ok (p :: ps2)
      | .error e => .error e

/-- Modelled from the spec: the stock-commit half of `finalize` — within
one transaction, call `StockLedger.decrement` for every bill item; if any
decrement fails the entire transaction aborts and no partial stock change
is produced (spec §4.2). -/
def decrementAll : List Product → String → List BillItem → Except Err (List Product)
  | ps, _, [] => .ok ps
  | ps, orgId, it :: rest =>
    match decrement ps it.product_id orgId it.quantity with
    | .ok ps1 => decrementAll ps1 orgId rest
    | .error e => .error e

/-- First bill matching `(billId, orgId)`. -/
def findBill (bs : List Bill) (billId orgId : String) : Option Bill :=
  bs.find? (fun b => b.id == billId && b.org_id == orgId)

/-- Replace the bill with the identity of `b2` by `b2`. -/
def updateBill (bs : List Bill) (b2 : Bill) : List Bill :=
  bs.map (fun b => if b.id == b2.id && b.org_id == b2.org_id then b2 else b)

/-- Modelled from the spec: item construction at bill creation — each
line carries `line_total = quantity * unit_price` (spec §3 invariant 1,
`checkout-api.spec.ts` BILL03). -/
def mkItems (raw : List (String × Nat × Int)) : List BillItem :=
  raw.map (fun r => ⟨r.1, r.2.1, r.2.2, (r.2.1 : Int) * r.2.2⟩)

/-- Modelled from the spec: `createBill` — a new draft bill; discount and
tax percentages are validated to lie in [0, 100] before any transaction
(spec §4.2); the HTTP surface (`POST /bills`) accepts the initial item
list and stores each line with its line total and the recomputed
subtotal. -/
def createBill (s : CheckoutState) (billId orgId : String) (dp tp : Int)
    (raw : List (String × Nat × Int)) : Except Err (CheckoutState × Bill) :=
  if 0 ≤ dp ∧ dp ≤ 100 ∧ 0 ≤ tp ∧ tp ≤ 100 then
    let its := mkItems raw
    let b : Bill :=
      ⟨billId, orgId, .draft, its, subtotalOf its, dp, tp, 0, 0, 0, none, none⟩
    .ok ({ s with bills := b :: s.bills }, b)
  else .error .ValidationError

/-- Merge-by-product item insertion: an existing line for the same
product increments its quantity (recomputing the line total at the
line's unit price), otherwise a new line is appended (spec §4.2
`addItem`). -/
def mergeItem : List BillItem → String → Nat → Int → List BillItem
  | [], pid, q, price => [⟨pid, q, price, (q : Int) * price⟩]
  | it :: rest, pid, q, price =>
    if it.product_id = pid then
      { it with quantity := it.quantity + q,
                line_total := ((it.quantity + q : Nat) : Int) * it.unit_price } :: rest
    else it :: mergeItem rest pid q price

/-- Modelled from the spec: `addItem(billId, productId, quantity)` —
fails `BillAlreadyFinalized` when the bill is not draft, fails
`ProductNotFound` when the product is not in the same organization,
merges into an existing line for the same product, and recomputes the
subtotal (spec §4.2). -/
def addItem (s : CheckoutState) (billId orgId pid : String) (q : Nat) :
    Except Err (CheckoutState × Bill) :=
  match findBill s.bills billId orgId with
  | none => .error .NotFound
  | some b =>
    if b.status = .finalized then .error .BillAlreadyFinalized
    else
      match findProduct s.products pid orgId with
      | none => .error .ProductNotFound
      | some p =>
        let its := mergeItem b.items pid q p.price
        let b2 := { b with items := its, subtotal := subtotalOf its }
        .ok ({ s with bills := updateBill s.bills b2 }, b2)

/-- Modelled from the spec: freezing the totals on finalize — discount
amount = subtotal × discount_percent/100, tax = (subtotal − discount) ×
tax_percent/100, total = subtotal − discount + tax, each rounded to
currency precision; status becomes finalized and `finalized_at` /
`finalized_by` are set (spec §4.2). -/
def freeze (b : Bill) (actor : String) (now : Nat) : Bill :=
  let d := roundPct b.subtotal b.discount_percent
  let t := roundPct (b.subtotal - d) b.tax_percent
  { b with status := .finalized, discount := d, tax := t,
           total := b.subtotal - d + t,
           finalized_at := some now, finalized_by := some actor }

/-- Modelled from the spec: `finalize(billId, orgId, actor)` — returns
the existing record when the bill is already finalized (idempotent-safe),
fails `EmptyBill` on an empty draft, otherwise decrements stock for every
item inside one all-or-nothing transaction and freezes the bill
(spec §4.2). -/
def finalizeBill (s : CheckoutState) (billId orgId actor : String) (now : Nat) :
    Except Err (CheckoutState × Bill) :=
  match findBill s.bills billId orgId with
  | none => .error .NotFound
  | some b =>
    if b.status = .finalized then .ok (s, b)
    else if b.items = [] then .error .EmptyBill
    else
      match decrementAll s.products orgId b.items with
      | .error e => .error e
      | .ok ps2 =>
        let b2 := freeze b actor now
        .ok ({ s with products := ps2, bills := updateBill s.bills b2 }, b2)

/-- Modelled from the spec: the closed payment-method variant — cash,
card, UPI, and the external gateway (named `razorpay` on the HTTP
surface, PAY04) which requires a non-empty provider transaction id;
any other method string is `UnsupportedMethod` (spec §4.3, §9). -/
inductive PayMethod where
  | cash
  | card
  | upi
  | externalGateway (providerRef : String)
  deriving Repr, DecidableEq

/-- Modelled from the spec: method-specific validation of the submitted
method string and optional provider reference (spec §4.3). -/
def parseMethod (method : String) (providerRef : Option String) : Except Err PayMethod :=
  if method = "cash" then .ok .cash
  else if method = "card" then .ok .card
  else if method = "upi" then .ok .upi
  else if method = "razorpay" then
    match providerRef with
    | some r => if r = "" then .error .MissingProviderReference else .ok (.externalGateway r)
    | none => .error .MissingProviderReference
  else .error .UnsupportedMethod

/-- Modelled from the spec: `amount == bill.total` within the currency
epsilon (spec §4.3); at integer-paise precision the epsilon is below one
paise, so the comparison is exact equality. -/
def amountMatches (a t : Int) : Bool := a == t

/-- Whether the bill already has a completed payment record. -/
def hasCompletedPayment (pays : List Payment) (billId : String) : Bool :=
  pays.any (fun p => p.bill_id == billId && p.status == PayStatus.completed)

/-- A payment request as received on `POST /bills/:id/payment`. -/
structure PaymentReq where
  amount : Int
  method : String
  provider_ref : Option String
  deriving Repr, DecidableEq

/-- Modelled from the spec: `processPayment(billId, amount, method,
methodFields)` — requires the bill to be finalized (`BillNotFinalized`
otherwise), rejects a second payment on a bill with an existing
completed payment (`DuplicatePayment`, write-once per bill), requires
the amount to match the frozen total (`AmountMismatch`), validates the
method, and on success records a completed payment with a settlement
timestamp (spec §4.3). -/
def processPayment (s : CheckoutState) (billId orgId : String) (req : PaymentReq)
    (now : Nat) : Except Err (CheckoutState × Payment) :=
  match findBill s.bills billId orgId with
  | none => .error .NotFound
  | some b =>
    if b.status = .finalized then
      if hasCompletedPayment s.payments billId then .error .DuplicatePayment
      else if amountMatches req.amount b.total then
        match parseMethod req.method req.provider_ref with
        | .error e => .error e
        | .ok _m =>
          let pay : Payment := ⟨billId, req.amount, req.method, req.provider_ref, .completed, now⟩
          .ok ({ s with payments := pay :: s.payments }, pay)
      else .error .AmountMismatch
    else .error .BillNotFinalized

/-- The checkout operations a request handler can invoke. -/
inductive Op where
  | create (billId orgId : String) (dp tp : Int) (raw : List (String × Nat × Int))
  | add (billId orgId pid : String) (q : Nat)
  | fin (billId orgId actor : String) (now : Nat)
  | pay (billId orgId : String) (req : PaymentReq) (now : Nat)

/-- Run one operation, returning the transaction's result state. -/
def runOp (s : CheckoutState) : Op → Except Err CheckoutState
  | .create billId orgId dp tp raw => (createBill s billId orgId dp tp raw).map (·.1)
  | .add billId orgId pid q => (addItem s billId orgId pid q).map (·.1)
  | .fin billId orgId actor now => (finalizeBill s billId orgId actor now).map (·.1)
  | .pay billId orgId req now => (processPayment s billId orgId req now).map (·.1)

/-- Modelled from the spec: every mutating operation is an all-or-nothing
transaction — a failure rolls back every side effect, so the observable
state after a failed operation is the original state (spec §5, §7). -/
def applyOp (s : CheckoutState) (op : Op) : CheckoutState :=
  match runOp s op with
  | .ok s2 => s2
  | .error _ => s

/-- A sequence of operations applied in order. -/
def applyOps (s : CheckoutState) (ops : List Op) : CheckoutState :=
  ops.foldl applyOp s

/-- Bool form of spec §3 invariant 1 for one bill: the stored subtotal is
the sum of quantity × unit price over the items, and every line total is
quantity × unit price. -/
def billInvariantB (b : Bill) : Bool :=
  decide (b.subtotal = subtotalOf b.items) &&
    b.items.all (fun it => decide (it.line_total = (it.quantity : Int) * it.unit_price))

/-- Bool form of invariant 1 over all bills of a state. -/
def billsInvariantB (bs : List Bill) : Bool := bs.all billInvariantB

/-- Bool form of spec §3 invariant 3: every catalog entry has
non-negative stock. -/
def stocksNonnegB (ps : List Product) : Bool :=
  ps.all (fun p => decide (0 ≤ p.quantity_in_stock))

/-- Every item of the bill references an existing product of the
organization. -/
def productsExistB (ps : List Product) (orgId : String) (items : List BillItem) : Bool :=
  items.all (fun it => (stockOf ps it.product_id orgId).isSome)

/-- Some item requests more than the available stock of its product. -/
def insufficientExistsB (ps : List Product) (orgId : String) (items : List BillItem) : Bool :=
  items.any (fun it =>
    match stockOf ps it.product_id orgId with
    | some v => decide (v < (it.quantity : Int))
    | none => false)

/-- Every item's product exists and has stock covering the total
quantity billed for it across the whole bill. -/
def sufficientStockB (ps : List Product) (orgId : String) (items : List BillItem) : Bool :=
  items.all (fun it =>
    match stockOf ps it.product_id orgId with
    | some v => decide ((billedQty items it.product_id : Int) ≤ v)
    | none => false)

/-- Modelled from the spec: the onboarding token — an ephemeral
capability binding one external subscription id (the verified external
payment identifier) to the purchased plan, minted only after signature
verification (spec §3, §4.5). -/
structure OnboardingToken where
  subscription_id : String
  plan : String
  deriving Repr, DecidableEq

/-- The body of `POST /payments/verify`: the external payment
identifiers (order-or-subscription id and payment id), the submitted
signature and the purchased plan. -/
structure VerifyPayload where
  external_id : String
  payment_id : String
  signature : String
  plan : String
  deriving Repr, DecidableEq

/-- Modelled from the spec: `verifyExternalSignature` + `mint`
(spec §4.5) — the payment-verification endpoint recomputes the
message-authentication code of the canonical concatenation
`external_id ++ "|" ++ payment_id` under the shared provider secret and
compares it with the submitted signature; on match it mints the
onboarding token binding `(subscription id, plan)`, otherwise it fails
`InvalidSignature` and issues no token.  The provider's HMAC-SHA256 is
an external collaborator (`crypto.createHmac` in the tests) and is
passed in as the function `mac`. -/
def verifyPayment (mac : String → String → String) (secret : String)
    (p : VerifyPayload) : Except Err OnboardingToken :=
  if p.signature = mac secret (p.external_id ++ "|" ++ p.payment_id) then
    .ok ⟨p.external_id, p.plan⟩
  else .error .InvalidSignature

/-- Modelled from the spec: an Organization — tenant root with a plan
tier and a `subscription_id` set at most once (spec §3). -/
structure Organization where
  id : String
  name : String
  plan_name : String
  subscription_id : String
  deriving Repr, DecidableEq

/-- Modelled from the spec: the registration-side persistent state —
organizations, their stores, admin users and role assignments
(spec §3, §4.5). -/
structure RegState where
  orgs : List Organization
  stores : List (String × String)
  admins : List (String × String)
  assignments : List (String × String)
  deriving Repr, DecidableEq

/-- Modelled from the spec: the static plan → store-limit table of the
PlanPolicyEngine — the starter tier allows 1 store, the premium tier is
materially higher (modelled unbounded); `checkout-api.spec.ts` shows
starter-monthly rejecting 2 stores and premium-monthly accepting them
(spec §4.4, §9). -/
def planStoreLimit : String → Option Nat
  | "starter-monthly" => some 1
  | _ => none

/-- Modelled from the spec: the static plan → role-assignment-limit
table — the starter tier allows 3 users of the constrained
`store_manager` role (spec §4.4, role-limit test in the repository's
plan-based access suite). -/
def roleLimit (plan role : String) : Option Nat :=
  if plan = "starter-monthly" ∧ role = "store_manager" then some 3 else none

/-- A proposed count is within an optional plan limit. -/
def withinLimit : Option Nat → Nat → Bool
  | none, _ => true
  | some lim, n => n ≤ lim

/-- The registration payload of `POST /auth/register-organization`. -/
structure RegPayload where
  org_name : String
  store_names : List String
  admin_username : String
  deriving Repr, DecidableEq

/-- Whether some existing organization already consumed this external
subscription id (the uniqueness constraint on `subscription_id`). -/
def subscriptionUsed (s : RegState) (subId : String) : Bool :=
  s.orgs.any (fun o => o.subscription_id == subId)

/-- Modelled from the spec: `exchange(token, registrationPayload)`
(spec §4.5) — before creating anything, atomically check-and-set the
token's `subscription_id` as consumed via the uniqueness constraint,
failing `SubscriptionAlreadyUsed` on replay; then enforce the plan's
store limit (`PlanLimitExceeded`); only then create the Organization
(persisting the token's plan and subscription id), its stores and the
initial admin with his role assignment, all in one transaction. -/
def registerOrganization (s : RegState) (tok : OnboardingToken) (reg : RegPayload)
    (newOrgId : String) : Except Err (RegState × Organization) :=
  if subscriptionUsed s tok.subscription_id then .error .SubscriptionAlreadyUsed
  else if withinLimit (planStoreLimit tok.plan) reg.store_names.length then
    let org : Organization := ⟨newOrgId, reg.org_name, tok.plan, tok.subscription_id⟩
    .ok ({ orgs := org :: s.orgs,
           stores := reg.store_names.map (fun n => (newOrgId, n)) ++ s.stores,
           admins := (newOrgId, reg.admin_username) :: s.admins,
           assignments := (newOrgId, "admin") :: s.assignments }, org)
  else .error .PlanLimitExceeded

/-- Modelled from the spec: the observable state after a registration
request — a failed exchange rolls back every side effect, so partial
organization creation is not observable (spec §4.5, §7). -/
def applyReg (s : RegState) (tok : OnboardingToken) (reg : RegPayload)
    (newOrgId : String) : RegState :=
  match registerOrganization s tok reg newOrgId with
  | .ok r => r.1
  | .error _ => s

/-- First organization with the given id. -/
def findOrg (s : RegState) (orgId : String) : Option Organization :=
  s.orgs.find? (fun o => o.id == orgId)

/-- Number of role assignments for `(orgId, role)`. -/
def countRole (s : RegState) (orgId role : String) : Nat :=
  (s.assignments.filter (fun a => a.1 == orgId && a.2 == role)).length

/-- Modelled from the spec: role-assignment creation (the invite flow)
gated by `checkRoleLimit` — the proposed count is compared against the
plan's limit at the moment of creation, and a violation raises
`PlanLimitExceeded` (spec §4.4). -/
def addRoleAssignment (s : RegState) (orgId role : String) : Except Err RegState :=
  match findOrg s orgId with
  | none => .error .NotFound
  | some org =>
    match roleLimit org.plan_name role with
    | none => .ok { s with assignments := (orgId, role) :: s.assignments }
    | some lim =>
      if countRole s orgId role < lim then
        .ok { s with assignments := (orgId, role) :: s.assignments }
      else .error .PlanLimitExceeded

/-! ## Stock-ledger lemmas -/

theorem decrement_stockOf {ps ps2 : List Product} {pid orgId : String} {q : Nat}
    (h : decrement ps pid orgId q = .ok ps2) (pid2 org2 : String) :
    stockOf ps2 pid2 org2 =
      (stockOf ps pid2 org2).map
        (fun v => v - if pid2 = pid ∧ org2 = orgId then (q : Int) else 0) := by
  induction ps generalizing ps2 with
  | nil => simp [decrement] at h
  | cons p ps ih =>
    rw [decrement] at h
    by_cases hm : p.id = pid ∧ p.org_id = orgId
    · rw [if_pos hm] at h
      by_cases hq : (q : Int) ≤ p.quantity_in_stock
      · rw [if_pos hq] at h
        cases h
        by_cases hm2 : pid2 = pid ∧ org2 = orgId
        · have hc : p.id = pid2 ∧ p.org_id = org2 := by
            exact ⟨hm.1.trans hm2.1.symm, hm.2.trans hm2.2.symm⟩
          simp [stockOf, hc, hm2]
        · have hc : ¬(p.id = pid2 ∧ p.org_id = org2) := by
            intro hc
            exact hm2 ⟨hc.1.symm.trans hm.1, hc.2.symm.trans hm.2⟩
          simp only [stockOf, if_neg hc, if_neg hm2]
          cases stockOf ps pid2 org2 <;> simp
      · rw [if_neg hq] at h; cases h
    · rw [if_neg hm] at h
      cases hrec : decrement ps pid orgId q with
      | ok ps3 =>
        rw [hrec] at h
        cases h
        by_cases hc : p.id = pid2 ∧ p.org_id = org2
        · have hm2 : ¬(pid2 = pid ∧ org2 = orgId) := by
            intro hm2
            exact hm ⟨hc.1.trans hm2.1, hc.2.trans hm2.2⟩
          simp [stockOf, hc, hm2]
        · simp only [stockOf, if_neg hc]
          exact ih hrec
      | error e => rw [hrec] at h; cases h

theorem decrement_nonneg {ps ps2 : List Product} {pid orgId : String} {q : Nat}
    (h : decrement ps pid orgId q = .ok ps2)
    (hn : stocksNonnegB ps = true) : stocksNonnegB ps2 = true := by
  induction ps generalizing ps2 with
  | nil => simp [decrement] at h
  | cons p ps ih =>
    rw [decrement] at h
    rw [stocksNonnegB, List.all_cons, Bool.and_eq_true, decide_eq_true_eq] at hn
    by_cases hm : p.id = pid ∧ p.org_id = orgId
    · rw [if_pos hm] at h
      by_cases hq : (q : Int) ≤ p.quantity_in_stock
      · rw [if_pos hq] at h
        cases h
        rw [stocksNonnegB, List.all_cons, Bool.and_eq_true, decide_eq_true_eq]
        exact ⟨by simp only []; omega, hn.2⟩
      · rw [if_neg hq] at h; cases h
    · rw [if_neg hm] at h
      cases hrec : decrement ps pid orgId q with
      | ok ps3 =>
        rw [hrec] at h
        cases h
        rw [stocksNonnegB, List.all_cons, Bool.and_eq_true, decide_eq_true_eq]
        exact ⟨hn.1, ih hrec hn.2⟩
      | error e => rw [hrec] at h; cases h

theorem decrement_ok_of_le {ps : List Product} {pid orgId : String} {q : Nat} {v : Int}
    (hs : stockOf ps pid orgId = some v) (hq : (q : Int) ≤ v) :
    ∃ ps2, decrement ps pid orgId q = .ok ps2 := by
  induction ps with
  | nil => simp [stockOf] at hs
  | cons p ps ih =>
    rw [stockOf] at hs
    by_cases hm : p.id = pid ∧ p.org_id = orgId
    · rw [if_pos hm] at hs
      cases hs
      refine ⟨{ p with quantity_in_stock := p.quantity_in_stock - (q : Int) } :: ps, ?_⟩
      simp [decrement, if_pos hm, if_pos hq]
    · rw [if_neg hm] at hs
      obtain ⟨ps2, hps2⟩ := ih hs
      refine ⟨p :: ps2, ?_⟩
      simp [decrement, if_neg hm, hps2]

theorem decrement_error_of_lt {ps : List Product} {pid orgId : String} {q : Nat} {v : Int}
    (hs : stockOf ps pid orgId = some v) (hq : v < (q : Int)) :
    decrement ps pid orgId q = .error (.InsufficientStock pid) := by
  induction ps with
  | nil => simp [stockOf] at hs
  | cons p ps ih =>
    rw [stockOf] at hs
    rw [decrement]
    by_cases hm : p.id = pid ∧ p.org_id = orgId
    · rw [if_pos hm] at hs
      cases hs
      rw [if_pos hm, if_neg (by omega)]
    · rw [if_neg hm] at hs
      rw [if_neg hm, ih hs]

theorem decrement_error_classify {ps : List Product} {pid orgId : String} {q : Nat}
    {v : Int} {e : Err}
    (hs : stockOf ps pid orgId = some v) (h : decrement ps pid orgId q = .error e) :
    e = .InsufficientStock pid ∧ v < (q : Int) := by
  by_cases hq : (q : Int) ≤ v
  · obtain ⟨ps2, hps2⟩ := decrement_ok_of_le hs hq
    rw [hps2] at h
    cases h
  · have hlt : v < (q : Int) := by omega
    have herr := decrement_error_of_lt hs hlt
    rw [herr] at h
    cases h
    exact ⟨rfl, by omega⟩

theorem billedQty_cons (it : BillItem) (rest : List BillItem) (pid : String) :
    billedQty (it :: rest) pid =
      (if it.product_id = pid then it.quantity else 0) + billedQty rest pid := rfl

theorem decrementAll_stockOf {ps ps2 : List Product} {orgId : String}
    {items : List BillItem}
    (h : decrementAll ps orgId items = .ok ps2) (pid2 org2 : String) :
    stockOf ps2 pid2 org2 =
      (stockOf ps pid2 org2).map
        (fun v => v - if org2 = orgId then (billedQty items pid2 : Int) else 0) := by
  induction items generalizing ps with
  | nil =>
    rw [decrementAll] at h
    cases h
    cases stockOf ps2 pid2 org2 <;> simp [billedQty]
  | cons it rest ih =>
    rw [decrementAll] at h
    cases hd : decrement ps it.product_id orgId it.quantity with
    | error e => rw [hd] at h; cases h
    | ok ps1 =>
      rw [hd] at h
      rw [ih h, decrement_stockOf hd pid2 org2]
      cases stockOf ps pid2 org2 with
      | none => simp
      | some v =>
        simp only [Option.map_some', Option.some.injEq]
        rw [billedQty_cons]
        by_cases ho : org2 = orgId
        · by_cases hp : pid2 = it.product_id
          · rw [if_pos ⟨hp, ho⟩, if_pos ho, if_pos ho, if_pos hp.symm]
            push_cast
            omega
          · rw [if_neg (fun hc => hp hc.1), if_pos ho, if_pos ho,
              if_neg (fun hc => hp hc.symm)]
            push_cast
            omega
        · rw [if_neg (fun hc => ho hc.2), if_neg ho, if_neg ho]
          omega

theorem decrementAll_nonneg {ps ps2 : List Product} {orgId : String}
    {items : List BillItem}
    (h : decrementAll ps orgId items = .ok ps2)
    (hn : stocksNonnegB ps = true) : stocksNonnegB ps2 = true := by
  induction items generalizing ps with
  | nil => rw [decrementAll] at h; cases h; exact hn
  | cons it rest ih =>
    rw [decrementAll] at h
    cases hd : decrement ps it.product_id orgId it.quantity with
    | ok ps1 =>
      rw [hd] at h
      exact ih h (decrement_nonneg hd hn)
    | error e => rw [hd] at h; cases h

theorem decrementAll_ok_of_sufficient {ps : List Product} {orgId : String}
    {items : List BillItem}
    (h : ∀ it ∈ items, ∃ v, stockOf ps it.product_id orgId = some v ∧
      (billedQty items it.product_id : Int) ≤ v) :
    ∃ ps2, decrementAll ps orgId items = .ok ps2 := by
  induction items generalizing ps with
  | nil => exact ⟨ps, rfl⟩
  | cons it rest ih =>
    obtain ⟨v, hv, hle⟩ := h it (List.mem_cons_self it rest)
    have hq : (it.quantity : Int) ≤ v := by
      rw [billedQty_cons, if_pos rfl] at hle
      push_cast at hle
      omega
    obtain ⟨ps1, hps1⟩ := decrement_ok_of_le hv hq
    have hrest : ∀ it2 ∈ rest, ∃ v2, stockOf ps1 it2.product_id orgId = some v2 ∧
        (billedQty rest it2.product_id : Int) ≤ v2 := by
      intro it2 hmem
      obtain ⟨v2, hv2, hle2⟩ := h it2 (List.mem_cons_of_mem _ hmem)
      have hmap := decrement_stockOf hps1 it2.product_id orgId
      rw [hv2] at hmap
      refine ⟨v2 - (if it2.product_id = it.product_id ∧ orgId = orgId
        then (it.quantity : Int) else 0), by simpa using hmap, ?_⟩
      rw [billedQty_cons] at hle2
      by_cases hp : it.product_id = it2.product_id
      · rw [if_pos hp] at hle2
        rw [if_pos ⟨hp.symm, rfl⟩]
        push_cast at hle2 ⊢
        omega
      · rw [if_neg hp] at hle2
        rw [if_neg (fun hc => hp hc.1.symm)]
        push_cast at hle2 ⊢
        omega
    obtain ⟨ps2, hps2⟩ := ih hrest
    refine ⟨ps2, ?_⟩
    rw [decrementAll, hps1]
    exact hps2

theorem decrementAll_insufficient {ps : List Product} {orgId : String}
    {items : List BillItem}
    (hex : ∀ it ∈ items, (stockOf ps it.product_id orgId).isSome = true)
    (hbad : ∃ it ∈ items, ∃ v, stockOf ps it.product_id orgId = some v ∧
      v < (it.quantity : Int)) :
    ∃ pid, decrementAll ps orgId items = .error (.InsufficientStock pid) := by
  induction items generalizing ps with
  | nil => simp at hbad
  | cons it rest ih =>
    cases hd : decrement ps it.product_id orgId it.quantity with
    | error e =>
      have hsome := hex it (List.mem_cons_self it rest)
      obtain ⟨v, hv⟩ := Option.isSome_iff_exists.mp hsome
      obtain ⟨he, _⟩ := decrement_error_classify hv hd
      refine ⟨it.product_id, ?_⟩
      rw [decrementAll, hd, he]
    | ok ps1 =>
      obtain ⟨itb, hmem, v, hv, hlt⟩ := hbad
      have hex1 : ∀ it2 ∈ rest, (stockOf ps1 it2.product_id orgId).isSome = true := by
        intro it2 hm2
        have hmap := decrement_stockOf hd it2.product_id orgId
        have hs2 := hex it2 (List.mem_cons_of_mem _ hm2)
        rw [hmap]
        cases hso : stockOf ps it2.product_id orgId with
        | none => rw [hso] at hs2; simp at hs2
        | some w => simp
      have hbad1 : ∃ it2 ∈ rest, ∃ v2, stockOf ps1 it2.product_id orgId = some v2 ∧
          v2 < (it2.quantity : Int) := by
        rcases List.mem_cons.mp hmem with heq | hm2
        · subst heq
          exfalso
          have herr := decrement_error_of_lt hv hlt
          rw [herr] at hd
          cases hd
        · have hmap := decrement_stockOf hd itb.product_id orgId
          rw [hv] at hmap
          refine ⟨itb, hm2, v - (if itb.product_id = it.product_id ∧ orgId = orgId
            then (it.quantity : Int) else 0), by simpa using hmap, ?_⟩
          have hge : (0 : Int) ≤ if itb.product_id = it.product_id ∧ orgId = orgId
              then (it.quantity : Int) else 0 := by
            split <;> simp
          omega
      obtain ⟨pid, hps⟩ := ih hex1 hbad1
      refine ⟨pid, ?_⟩
      rw [decrementAll, hd]
      exact hps

/-! ## Bill-ledger lemmas -/

/-- Prop form of spec §3 invariant 1 for one bill. -/
def billInvariant (b : Bill) : Prop :=
  b.subtotal = subtotalOf b.items ∧
    ∀ it ∈ b.items, it.line_total = (it.quantity : Int) * it.unit_price

theorem billsInvariantB_iff {bs : List Bill} :
    billsInvariantB bs = true ↔ ∀ b ∈ bs, billInvariant b := by
  simp [billsInvariantB, billInvariantB, billInvariant, List.all_eq_true]

theorem findBill_eq {bs : List Bill} {billId orgId : String} {b : Bill}
    (h : findBill bs billId orgId = some b) : b.id = billId ∧ b.org_id = orgId := by
  have hp := List.find?_some h
  simpa using hp

theorem findBill_mem {bs : List Bill} {billId orgId : String} {b : Bill}
    (h : findBill bs billId orgId = some b) : b ∈ bs :=
  List.mem_of_find?_eq_some h

theorem findBill_updateBill {bs : List Bill} {billId orgId : String} {b2 : Bill}
    (hid : b2.id = billId) (horg : b2.org_id = orgId)
    (hex : (findBill bs billId orgId).isSome = true) :
    findBill (updateBill bs b2) billId orgId = some b2 := by
  induction bs with
  | nil => simp [findBill] at hex
  | cons x bs ih =>
    by_cases hx : (x.id == billId && x.org_id == orgId) = true
    · simp only [updateBill, List.map_cons]
      have hcond : (x.id == b2.id && x.org_id == b2.org_id) = true := by
        rw [hid, horg]; exact hx
      rw [if_pos hcond]
      rw [findBill]
      apply List.find?_cons_of_pos
      simp [hid, horg]
    · simp only [updateBill, List.map_cons]
      have hcond : ¬(x.id == b2.id && x.org_id == b2.org_id) = true := by
        rw [hid, horg]; exact hx
      rw [if_neg hcond]
      rw [findBill]
      rw [List.find?_cons_of_neg _ (by simpa using hx)]
      have hex2 : (findBill bs billId orgId).isSome = true := by
        rw [findBill, List.find?_cons_of_neg _ (by simpa using hx)] at hex
        exact hex
      exact ih hex2

theorem updateBill_mem {bs : List Bill} {b2 x : Bill}
    (h : x ∈ updateBill bs b2) : x = b2 ∨ x ∈ bs := by
  rw [updateBill] at h
  obtain ⟨a, ha, hax⟩ := List.mem_map.mp h
  by_cases hc : (a.id == b2.id && a.org_id == b2.org_id) = true
  · rw [if_pos hc] at hax
    exact Or.inl hax.symm
  · rw [if_neg hc] at hax
    exact Or.inr (hax ▸ ha)

theorem mergeItem_inv {items : List BillItem} {pid : String} {q : Nat} {price : Int}
    (h : ∀ it ∈ items, it.line_total = (it.quantity : Int) * it.unit_price) :
    ∀ it2 ∈ mergeItem items pid q price,
      it2.line_total = (it2.quantity : Int) * it2.unit_price := by
  induction items with
  | nil =>
    intro it2 hmem
    rw [mergeItem, List.mem_singleton] at hmem
    subst hmem
    rfl
  | cons it rest ih =>
    intro it2 hmem
    rw [mergeItem] at hmem
    by_cases hc : it.product_id = pid
    · rw [if_pos hc] at hmem
      rcases List.mem_cons.mp hmem with heq | hm2
      · subst heq; rfl
      · exact h it2 (List.mem_cons_of_mem _ hm2)
    · rw [if_neg hc] at hmem
      rcases List.mem_cons.mp hmem with heq | hm2
      · rw [heq]
        exact h it (List.mem_cons_self it rest)
      · exact ih (fun a ha => h a (List.mem_cons_of_mem _ ha)) it2 hm2

/-! ## Claim C4 — finalize is idempotent by bill identity -/

/-- Claim C4: finalize is idempotent by bill identity — whenever a
finalize call succeeds, any later finalize of the same bill (any actor,
any time) returns exactly the same finalized record and the same state,
so no product's stock is decremented a second time. -/
theorem claim4_finalize_idempotent {s s1 : CheckoutState} {billId orgId actor : String}
    {now : Nat} {b1 : Bill} (actor2 : String) (now2 : Nat)
    (h : finalizeBill s billId orgId actor now = .ok (s1, b1)) :
    finalizeBill s1 billId orgId actor2 now2 = .ok (s1, b1) := by
  cases hf : findBill s.bills billId orgId with
  | none =>
    simp only [finalizeBill, hf] at h
    cases h
  | some b =>
    simp only [finalizeBill, hf] at h
    obtain ⟨hbid, hborg⟩ := findBill_eq hf
    by_cases hstat : b.status = .finalized
    · rw [if_pos hstat] at h
      cases h
      simp only [finalizeBill, hf]
      rw [if_pos hstat]
    · rw [if_neg hstat] at h
      by_cases hempty : b.items = []
      · rw [if_pos hempty] at h
        cases h
      · rw [if_neg hempty] at h
        cases hd : decrementAll s.products orgId b.items with
        | error e => rw [hd] at h; cases h
        | ok ps2 =>
          rw [hd] at h
          cases h
          have hex : (findBill s.bills billId orgId).isSome = true := by
            rw [hf]
            rfl
          have hfind := findBill_updateBill
            (show (freeze b actor now).id = billId from hbid)
            (show (freeze b actor now).org_id = orgId from hborg) hex
          simp only [finalizeBill, hfind]
          rw [if_pos (show (freeze b actor now).status = .finalized from rfl)]

/-- A draft bill ready to be finalized, with one line of product `A`. -/
def billW4 : Bill :=
  ⟨"b1", "org", .draft, [⟨"A", 2, 10000, 20000⟩], 20000, 0, 0, 0, 0, 0, none, none⟩

/-- A state holding `billW4` and a stock of 10 units of product `A`. -/
def stateW4 : CheckoutState := ⟨[⟨"A", "org", 10000, 10⟩], [billW4], []⟩

/-- The frozen form of `billW4`. -/
def billW4f : Bill :=
  ⟨"b1", "org", .finalized, [⟨"A", 2, 10000, 20000⟩], 20000, 0, 0, 0, 0, 20000,
    some 5, some "u"⟩

/-- The state after finalizing `billW4`: stock decremented to 8. -/
def stateW4f : CheckoutState := ⟨[⟨"A", "org", 10000, 8⟩], [billW4f], []⟩

theorem claim4_witness :
    finalizeBill stateW4 "b1" "org" "u" 5 = .ok (stateW4f, billW4f) ∧
      finalizeBill stateW4f "b1" "org" "v" 9 = .ok (stateW4f, billW4f) := by
  have h : finalizeBill stateW4 "b1" "org" "u" 5 = .ok (stateW4f, billW4f) := by decide
  exact ⟨h, claim4_finalize_idempotent "v" 9 h⟩

/-! ## Claim C5 — payment requires a finalized bill -/

/-- Claim C5: for every bill that is not finalized, `processPayment`
fails with `BillNotFinalized` and records no payment — the observable
state is unchanged, so a payment can only settle against an already
finalized bill. -/
theorem claim5_payment_requires_finalized {s : CheckoutState} {billId orgId : String}
    {b : Bill} (req : PaymentReq) (now : Nat)
    (hb : findBill s.bills billId orgId = some b)
    (hnf : ¬ b.status = .finalized) :
    processPayment s billId orgId req now = .error .BillNotFinalized ∧
      applyOp s (.pay billId orgId req now) = s := by
  have h1 : processPayment s billId orgId req now = .error .BillNotFinalized := by
    simp only [processPayment, hb]
    rw [if_neg hnf]
  refine ⟨h1, ?_⟩
  simp [applyOp, runOp, h1, Except.map]

/-- A state with the draft bill `billW4` and no payments. -/
def stateW5 : CheckoutState := ⟨[⟨"A", "org", 10000, 10⟩], [billW4], []⟩

theorem claim5_witness :
    processPayment stateW5 "b1" "org" ⟨20000, "cash", none⟩ 11
        = .error .BillNotFinalized ∧
      applyOp stateW5 (.pay "b1" "org" ⟨20000, "cash", none⟩ 11) = stateW5 := by
  have hb : findBill stateW5.bills "b1" "org" = some billW4 := by decide
  exact claim5_payment_requires_finalized ⟨20000, "cash", none⟩ 11 hb (by decide)

/-! ## Claim C6 — at most one completed payment per bill -/

/-- Claim C6: a bill that already has a completed payment rejects a
second `processPayment` call with `DuplicatePayment`, even when the
submitted amount matches the frozen total and the method is valid, and
the state (hence the existing payment record) is unchanged. -/
theorem claim6_duplicate_payment {s : CheckoutState} {billId orgId : String}
    {b : Bill} {req : PaymentReq} {m : PayMethod} (now : Nat)
    (hb : findBill s.bills billId orgId = some b)
    (hf : b.status = .finalized)
    (hdup : hasCompletedPayment s.payments billId = true)
    (_ham : amountMatches req.amount b.total = true)
    (_hm : parseMethod req.method req.provider_ref = .ok m) :
    processPayment s billId orgId req now = .error .DuplicatePayment ∧
      applyOp s (.pay billId orgId req now) = s := by
  have h1 : processPayment s billId orgId req now = .error .DuplicatePayment := by
    simp only [processPayment, hb]
    rw [if_pos hf, if_pos hdup]
  refine ⟨h1, ?_⟩
  simp [applyOp, runOp, h1, Except.map]

/-- A finalized bill with total 94500 paise (the PAY01 amounts of
`checkout-api.spec.ts`). -/
def billW6 : Bill :=
  ⟨"b1", "org", .finalized, [⟨"A", 1, 100000, 100000⟩], 100000, 10, 5,
    10000, 4500, 94500, some 3, some "u"⟩

/-- A state whose only bill is `billW6`, already paid in cash. -/
def stateW6 : CheckoutState :=
  ⟨[⟨"A", "org", 100000, 9⟩], [billW6], [⟨"b1", 94500, "cash", none, .completed, 4⟩]⟩

theorem claim6_witness :
    processPayment stateW6 "b1" "org" ⟨94500, "cash", none⟩ 12
        = .error .DuplicatePayment ∧
      applyOp stateW6 (.pay "b1" "org" ⟨94500, "cash", none⟩ 12) = stateW6 := by
  have hb : findBill stateW6.bills "b1" "org" = some billW6 := by decide
  have hm : parseMethod "cash" none = .ok .cash := by decide
  exact claim6_duplicate_payment 12 hb (by decide) (by decide) (by decide) hm

/-! ## Claim C7 — onboarding tokens are single-use -/

/-- Claim C7: after one successful exchange of an onboarding token,
every further exchange attempt with the same token fails with
`SubscriptionAlreadyUsed` (HTTP 409) and the state is unchanged — no
second organization, no stores and no admin user are created. -/
theorem claim7_token_single_use {s s1 : RegState} {tok : OnboardingToken}
    {reg : RegPayload} {oid : String} {org : Organization}
    (h : registerOrganization s tok reg oid = .ok (s1, org))
    (reg2 : RegPayload) (oid2 : String) :
    registerOrganization s1 tok reg2 oid2 = .error .SubscriptionAlreadyUsed ∧
      httpStatus .SubscriptionAlreadyUsed = 409 ∧
      applyReg s1 tok reg2 oid2 = s1 := by
  simp only [registerOrganization] at h
  by_cases hused : subscriptionUsed s tok.subscription_id = true
  · rw [if_pos hused] at h
    cases h
  · rw [if_neg hused] at h
    by_cases hlim : withinLimit (planStoreLimit tok.plan) reg.store_names.length = true
    · rw [if_pos hlim] at h
      have hmem : ∃ o, o ∈ s1.orgs ∧ o.subscription_id = tok.subscription_id := by
        cases h
        exact ⟨_, List.mem_cons_self _ _, rfl⟩
      have hused1 : subscriptionUsed s1 tok.subscription_id = true := by
        obtain ⟨o, ho, hos⟩ := hmem
        simp only [subscriptionUsed, List.any_eq_true]
        exact ⟨o, ho, by simp [hos]⟩
      have h2 : registerOrganization s1 tok reg2 oid2
          = .error .SubscriptionAlreadyUsed := by
        rw [registerOrganization, if_pos hused1]
      exact ⟨h2, rfl, by simp [applyReg, h2]⟩
    · rw [if_neg hlim] at h
      cases h

/-- An onboarding token bound to subscription `sub_replay` on the
premium plan. -/
def tokW7 : OnboardingToken := ⟨"sub_replay", "premium-monthly"⟩

/-- A registration payload with one store. -/
def regW7 : RegPayload := ⟨"Replay Org 1", ["Store 1"], "replay-admin-1"⟩

/-- The state after the first successful exchange of `tokW7`. -/
def regStateW7 : RegState :=
  ⟨[⟨"o1", "Replay Org 1", "premium-monthly", "sub_replay"⟩],
   [("o1", "Store 1")], [("o1", "replay-admin-1")], [("o1", "admin")]⟩

theorem claim7_witness :
    registerOrganization ⟨[], [], [], []⟩ tokW7 regW7 "o1"
        = .ok (regStateW7, ⟨"o1", "Replay Org 1", "premium-monthly", "sub_replay"⟩) ∧
      registerOrganization regStateW7 tokW7 ⟨"Replay Org 2", ["Store 2"], "replay-admin-2"⟩ "o2"
        = .error .SubscriptionAlreadyUsed ∧
      httpStatus .SubscriptionAlreadyUsed = 409 ∧
      applyReg regStateW7 tokW7 ⟨"Replay Org 2", ["Store 2"], "replay-admin-2"⟩ "o2"
        = regStateW7 := by
  have h : registerOrganization ⟨[], [], [], []⟩ tokW7 regW7 "o1"
      = .ok (regStateW7, ⟨"o1", "Replay Org 1", "premium-monthly", "sub_replay"⟩) := by
    decide
  exact ⟨h, claim7_token_single_use h ⟨"Replay Org 2", ["Store 2"], "replay-admin-2"⟩ "o2"⟩

/-! ## Claim C8 — signature verification gates token issuance -/

/-- Claim C8: payment verification succeeds — returning the onboarding
token binding the verified subscription id to the submitted plan — iff
the submitted signature equals the message-authentication code, under
the shared provider secret, of the canonical concatenation
`external id ++ "|" ++ payment id`; on any other signature the call
fails with `InvalidSignature` and no token is issued.  The provider's
HMAC-SHA256 is the external collaborator `mac`. -/
theorem claim8_signature_gate (mac : String → String → String) (secret : String)
    (p : VerifyPayload) :
    (verifyPayment mac secret p = .ok ⟨p.external_id, p.plan⟩ ↔
      p.signature = mac secret (p.external_id ++ "|" ++ p.payment_id)) ∧
    (¬ p.signature = mac secret (p.external_id ++ "|" ++ p.payment_id) →
      verifyPayment mac secret p = .error .InvalidSignature) := by
  refine ⟨⟨?_, ?_⟩, ?_⟩
  · intro h
    by_contra hc
    rw [verifyPayment, if_neg hc] at h
    cases h
  · intro h
    rw [verifyPayment, if_pos h]
  · intro h
    rw [verifyPayment, if_neg h]

/-- A concrete stand-in for the provider's keyed MAC. -/
def macW (secret message : String) : String := secret ++ "#" ++ message

theorem claim8_witness :
    verifyPayment macW "k" ⟨"sub1", "pay1", "k#sub1|pay1", "starter-monthly"⟩
        = .ok ⟨"sub1", "starter-monthly"⟩ ∧
      verifyPayment macW "k" ⟨"sub1", "pay1", "bad_sig", "starter-monthly"⟩
        = .error .InvalidSignature := by
  refine ⟨(claim8_signature_gate macW "k" ⟨"sub1", "pay1", "k#sub1|pay1", "starter-monthly"⟩).1.mpr
    (by decide), ?_⟩
  exact (claim8_signature_gate macW "k" ⟨"sub1", "pay1", "bad_sig", "starter-monthly"⟩).2
    (by decide)

/-! ## Claim C9 — plan limits are enforced at the exact boundary -/

/-- Claim C9: plan limits bind exactly at creation time — an
organization registering on the starter plan with more than 1 store
fails with `PlanLimitExceeded`, and for the starter plan's
`store_manager` role (limited to 3) an assignment creation succeeds
precisely while the current count is below 3 (so the 1st through 3rd
succeed, each raising the count by one) and fails with
`PlanLimitExceeded` once 3 assignments exist (the 4th). -/
theorem claim9_plan_boundary :
    (∀ (s : RegState) (tok : OnboardingToken) (reg : RegPayload) (oid : String),
      tok.plan = "starter-monthly" →
      subscriptionUsed s tok.subscription_id = false →
      1 < reg.store_names.length →
      registerOrganization s tok reg oid = .error .PlanLimitExceeded) ∧
    (∀ (s : RegState) (oid : String) (org : Organization),
      findOrg s oid = some org →
      org.plan_name = "starter-monthly" →
      (countRole s oid "store_manager" < 3 →
        addRoleAssignment s oid "store_manager" =
          .ok { s with assignments := (oid, "store_manager") :: s.assignments } ∧
        countRole { s with assignments := (oid, "store_manager") :: s.assignments }
            oid "store_manager" = countRole s oid "store_manager" + 1) ∧
      (3 ≤ countRole s oid "store_manager" →
        addRoleAssignment s oid "store_manager" = .error .PlanLimitExceeded)) := by
  constructor
  · intro s tok reg oid hplan hused hlen
    rw [registerOrganization, if_neg (by rw [hused]; exact Bool.false_ne_true)]
    rw [if_neg ?_]
    rw [hplan]
    simp only [planStoreLimit, withinLimit]
    simp only [decide_eq_true_eq]
    omega
  · intro s oid org horg hplan
    have hrl : roleLimit org.plan_name "store_manager" = some 3 := by
      rw [hplan]
      rfl
    constructor
    · intro hlt
      refine ⟨?_, ?_⟩
      · simp only [addRoleAssignment, horg, hrl]
        rw [if_pos hlt]
      · simp [countRole]
    · intro hge
      simp only [addRoleAssignment, horg, hrl]
      rw [if_neg (by omega)]

/-- A starter-plan organization with no role assignments yet. -/
def regStateW9 : RegState :=
  ⟨[⟨"o1", "Starter Limits Org", "starter-monthly", "sub9"⟩], [("o1", "S1")], [], []⟩

/-- `regStateW9` after one, two and three `store_manager` assignments. -/
def regStateW9a : RegState :=
  { regStateW9 with assignments := [("o1", "store_manager")] }

def regStateW9b : RegState :=
  { regStateW9 with assignments := [("o1", "store_manager"), ("o1", "store_manager")] }

def regStateW9c : RegState :=
  { regStateW9 with assignments :=
      [("o1", "store_manager"), ("o1", "store_manager"), ("o1", "store_manager")] }

theorem claim9_witness :
    registerOrganization ⟨[], [], [], []⟩ ⟨"subX", "starter-monthly"⟩
        ⟨"Starter Org", ["Store 1", "Store 2"], "adm"⟩ "o9"
        = .error .PlanLimitExceeded ∧
      addRoleAssignment regStateW9 "o1" "store_manager" = .ok regStateW9a ∧
      addRoleAssignment regStateW9a "o1" "store_manager" = .ok regStateW9b ∧
      addRoleAssignment regStateW9b "o1" "store_manager" = .ok regStateW9c ∧
      addRoleAssignment regStateW9c "o1" "store_manager" = .error .PlanLimitExceeded := by
  have horg : findOrg regStateW9 "o1"
      = some ⟨"o1", "Starter Limits Org", "starter-monthly", "sub9"⟩ := by decide
  have horga : findOrg regStateW9a "o1"
      = some ⟨"o1", "Starter Limits Org", "starter-monthly", "sub9"⟩ := by decide
  have horgb : findOrg regStateW9b "o1"
      = some ⟨"o1", "Starter Limits Org", "starter-monthly", "sub9"⟩ := by decide
  have horgc : findOrg regStateW9c "o1"
      = some ⟨"o1", "Starter Limits Org", "starter-monthly", "sub9"⟩ := by decide
  refine ⟨claim9_plan_boundary.1 ⟨[], [], [], []⟩ ⟨"subX", "starter-monthly"⟩
      ⟨"Starter Org", ["Store 1", "Store 2"], "adm"⟩ "o9" rfl (by decide) (by decide),
    ((claim9_plan_boundary.2 regStateW9 "o1" _ horg rfl).1 (by decide)).1,
    ((claim9_plan_boundary.2 regStateW9a "o1" _ horga rfl).1 (by decide)).1,
    ((claim9_plan_boundary.2 regStateW9b "o1" _ horgb rfl).1 (by decide)).1,
    (claim9_plan_boundary.2 regStateW9c "o1" _ horgc rfl).2 (by decide)⟩

/-! ## Claim C10 — the registered organization persists the verified binding -/

/-- Claim C10: in a successful verify-then-register flow, the created
Organization persists exactly the binding carried by the onboarding
token — its `plan_name` equals the plan submitted to payment
verification and its `subscription_id` equals the verified external
subscription id — and the organization is retrievable from the
resulting state. -/
theorem claim10_binding_persisted {mac : String → String → String} {secret : String}
    {p : VerifyPayload} {tok : OnboardingToken} {s s1 : RegState}
    {reg : RegPayload} {oid : String} {org : Organization}
    (hv : verifyPayment mac secret p = .ok tok)
    (hr : registerOrganization s tok reg oid = .ok (s1, org)) :
    org.plan_name = p.plan ∧ org.subscription_id = p.external_id ∧
      findOrg s1 org.id = some org := by
  rw [verifyPayment] at hv
  by_cases hsig : p.signature = mac secret (p.external_id ++ "|" ++ p.payment_id)
  · rw [if_pos hsig] at hv
    cases hv
    simp only [registerOrganization] at hr
    by_cases hused : subscriptionUsed s (OnboardingToken.mk p.external_id p.plan).subscription_id = true
    · rw [if_pos hused] at hr
      cases hr
    · rw [if_neg hused] at hr
      by_cases hlim : withinLimit (planStoreLimit (OnboardingToken.mk p.external_id p.plan).plan)
          reg.store_names.length = true
      · rw [if_pos hlim] at hr
        cases hr
        refine ⟨rfl, rfl, ?_⟩
        simp [findOrg]
      · rw [if_neg hlim] at hr
        cases hr
  · rw [if_neg hsig] at hv
    cases hv

theorem claim10_witness :
    verifyPayment macW "rzp_sig_secret"
        ⟨"sub_e2e", "pay_e2e", "rzp_sig_secret#sub_e2e|pay_e2e", "premium-monthly"⟩
        = .ok ⟨"sub_e2e", "premium-monthly"⟩ ∧
      registerOrganization ⟨[], [], [], []⟩ ⟨"sub_e2e", "premium-monthly"⟩
        ⟨"E2E Org", ["Main Store", "Branch Store"], "e2e-admin"⟩ "oE"
        = .ok (⟨[⟨"oE", "E2E Org", "premium-monthly", "sub_e2e"⟩],
            [("oE", "Main Store"), ("oE", "Branch Store")], [("oE", "e2e-admin")],
            [("oE", "admin")]⟩,
          ⟨"oE", "E2E Org", "premium-monthly", "sub_e2e"⟩) ∧
      (⟨"oE", "E2E Org", "premium-monthly", "sub_e2e"⟩ : Organization).plan_name
        = "premium-monthly" ∧
      (⟨"oE", "E2E Org", "premium-monthly", "sub_e2e"⟩ : Organization).subscription_id
        = "sub_e2e" := by
  have hv : verifyPayment macW "rzp_sig_secret"
      ⟨"sub_e2e", "pay_e2e", "rzp_sig_secret#sub_e2e|pay_e2e", "premium-monthly"⟩
      = .ok ⟨"sub_e2e", "premium-monthly"⟩ := by decide
  have hr : registerOrganization ⟨[], [], [], []⟩ ⟨"sub_e2e", "premium-monthly"⟩
      ⟨"E2E Org", ["Main Store", "Branch Store"], "e2e-admin"⟩ "oE"
      = .ok (⟨[⟨"oE", "E2E Org", "premium-monthly", "sub_e2e"⟩],
          [("oE", "Main Store"), ("oE", "Branch Store")], [("oE", "e2e-admin")],
          [("oE", "admin")]⟩,
        ⟨"oE", "E2E Org", "premium-monthly", "sub_e2e"⟩) := by decide
  obtain ⟨h1, h2, _⟩ := claim10_binding_persisted hv hr
  exact ⟨hv, hr, h1, h2⟩

/-! ## Bridges between the executable stock predicates and their Prop forms -/

theorem productsExistB_eq {ps : List Product} {orgId : String} {items : List BillItem} :
    productsExistB ps orgId items = true ↔
    ∀ it ∈ items, (stockOf ps it.product_id orgId).isSome = true := by
  rw [productsExistB, List.all_eq_true]

theorem sufficientStockB_eq {ps : List Product} {orgId : String} {items : List BillItem} :
    sufficientStockB ps orgId items = true ↔
    ∀ it ∈ items, ∃ v, stockOf ps it.product_id orgId = some v ∧
      (billedQty items it.product_id : Int) ≤ v := by
  rw [sufficientStockB, List.all_eq_true]
  constructor
  · intro h it hmem
    have h2 := h it hmem
    cases hso : stockOf ps it.product_id orgId with
    | none =>
      simp only [hso] at h2
      cases h2
    | some v =>
      simp only [hso, decide_eq_true_eq] at h2
      exact ⟨v, rfl, h2⟩
  · intro h it hmem
    obtain ⟨v, hv, hle⟩ := h it hmem
    simp only [hv, decide_eq_true_eq]
    exact hle

theorem insufficientExistsB_eq {ps : List Product} {orgId : String} {items : List BillItem} :
    insufficientExistsB ps orgId items = true ↔
    ∃ it ∈ items, ∃ v, stockOf ps it.product_id orgId = some v ∧
      v < (it.quantity : Int) := by
  rw [insufficientExistsB, List.any_eq_true]
  constructor
  · rintro ⟨it, hmem, h2⟩
    cases hso : stockOf ps it.product_id orgId with
    | none =>
      simp only [hso] at h2
      cases h2
    | some v =>
      simp only [hso, decide_eq_true_eq] at h2
      exact ⟨it, hmem, v, hso, h2⟩
  · rintro ⟨it, hmem, v, hv, hlt⟩
    refine ⟨it, hmem, ?_⟩
    simp only [hv, decide_eq_true_eq]
    exact hlt

/-! ## Claim C3 — a covered finalize succeeds and decrements exactly -/

/-- Claim C3: for every draft, non-empty bill whose items all have
sufficient stock, finalize succeeds with the frozen bill (so
`finalized_at` is set to the finalize time), and the resulting catalog
decrements each product of the bill's organization by exactly the total
quantity billed for it — every other product's stock, and every other
organization, is untouched. -/
theorem claim3_finalize_success {s : CheckoutState} {billId orgId : String} {b : Bill}
    (actor : String) (now : Nat)
    (hb : findBill s.bills billId orgId = some b)
    (hd : b.status = .draft)
    (hne : ¬ b.items = [])
    (hstock : sufficientStockB s.products orgId b.items = true) :
    ∃ s2, finalizeBill s billId orgId actor now = .ok (s2, freeze b actor now) ∧
      (freeze b actor now).finalized_at = some now ∧
      ∀ pid org2, stockOf s2.products pid org2 =
        (stockOf s.products pid org2).map
          (fun v => v - if org2 = orgId then (billedQty b.items pid : Int) else 0) := by
  obtain ⟨ps2, hps2⟩ := decrementAll_ok_of_sufficient (sufficientStockB_eq.mp hstock)
  have hnotfin : ¬ b.status = .finalized := by
    intro hc
    rw [hd] at hc
    cases hc
  refine ⟨{ s with products := ps2, bills := updateBill s.bills (freeze b actor now) },
    ?_, rfl, ?_⟩
  · simp only [finalizeBill, hb, hps2]
    rw [if_neg hnotfin, if_neg hne]
  · intro pid org2
    exact decrementAll_stockOf hps2 pid org2

/-- The spec scenario bill: product `A` quantity 2 at price 100 and
product `B` quantity 1 at price 200 (amounts in paise), with
discount 10% and tax 5%. -/
def billW3 : Bill :=
  ⟨"b1", "org", .draft, [⟨"A", 2, 10000, 20000⟩, ⟨"B", 1, 20000, 20000⟩],
    40000, 10, 5, 0, 0, 0, none, none⟩

/-- The spec scenario state: stock 10 of `A` and 5 of `B`. -/
def stateW3 : CheckoutState :=
  ⟨[⟨"A", "org", 10000, 10⟩, ⟨"B", "org", 20000, 5⟩], [billW3], []⟩

/-- The frozen scenario bill: subtotal 400, discount 40, tax 18,
total 378 (in paise). -/
def billW3f : Bill :=
  ⟨"b1", "org", .finalized, [⟨"A", 2, 10000, 20000⟩, ⟨"B", 1, 20000, 20000⟩],
    40000, 10, 5, 4000, 1800, 37800, some 7, some "u"⟩

theorem claim3_witness :
    (∃ s2, finalizeBill stateW3 "b1" "org" "u" 7 = .ok (s2, freeze billW3 "u" 7) ∧
      (freeze billW3 "u" 7).finalized_at = some 7 ∧
      ∀ pid org2, stockOf s2.products pid org2 =
        (stockOf stateW3.products pid org2).map
          (fun v => v - if org2 = "org" then (billedQty billW3.items pid : Int) else 0)) ∧
    freeze billW3 "u" 7 = billW3f ∧
    finalizeBill stateW3 "b1" "org" "u" 7 =
      .ok (⟨[⟨"A", "org", 10000, 8⟩, ⟨"B", "org", 20000, 4⟩], [billW3f], []⟩, billW3f) := by
  have hb : findBill stateW3.bills "b1" "org" = some billW3 := by decide
  exact ⟨claim3_finalize_success "u" 7 hb (by decide) (by decide) (by decide),
    by decide, by decide⟩

/-! ## Claim C2 — stock never goes negative; shortfalls reject atomically -/

theorem createBill_products {s : CheckoutState} {billId orgId : String} {dp tp : Int}
    {raw : List (String × Nat × Int)} {r : CheckoutState × Bill}
    (h : createBill s billId orgId dp tp raw = .ok r) : r.1.products = s.products := by
  simp only [createBill] at h
  split at h
  · cases h
    rfl
  · cases h

theorem addItem_products {s : CheckoutState} {billId orgId pid : String} {q : Nat}
    {r : CheckoutState × Bill}
    (h : addItem s billId orgId pid q = .ok r) : r.1.products = s.products := by
  simp only [addItem] at h
  split at h
  · cases h
  · split at h
    · cases h
    · split at h
      · cases h
      · cases h
        rfl

theorem processPayment_products {s : CheckoutState} {billId orgId : String}
    {req : PaymentReq} {now : Nat} {r : CheckoutState × Payment}
    (h : processPayment s billId orgId req now = .ok r) : r.1.products = s.products := by
  simp only [processPayment] at h
  split at h
  · cases h
  · split at h
    · split at h
      · cases h
      · split at h
        · split at h
          · cases h
          · cases h
            rfl
        · cases h
    · cases h

theorem finalizeBill_nonneg {s : CheckoutState} {billId orgId actor : String}
    {now : Nat} {r : CheckoutState × Bill}
    (h : finalizeBill s billId orgId actor now = .ok r)
    (hn : stocksNonnegB s.products = true) : stocksNonnegB r.1.products = true := by
  simp only [finalizeBill] at h
  split at h
  · cases h
  · split at h
    · cases h
      exact hn
    · split at h
      · cases h
      · split at h
        · cases h
        · next ps2 hde =>
            cases h
            exact decrementAll_nonneg hde hn

theorem applyOp_products_nonneg (s : CheckoutState) (op : Op)
    (hn : stocksNonnegB s.products = true) :
    stocksNonnegB (applyOp s op).products = true := by
  rw [applyOp]
  cases hop : runOp s op with
  | error e => exact hn
  | ok s2 =>
    cases op with
    | create billId orgId dp tp raw =>
      simp only [runOp] at hop
      cases hcb : createBill s billId orgId dp tp raw with
      | error e =>
        rw [hcb] at hop
        simp [Except.map] at hop
      | ok r =>
        rw [hcb] at hop
        simp only [Except.map] at hop
        cases hop
        rw [createBill_products hcb]
        exact hn
    | add billId orgId pid q =>
      simp only [runOp] at hop
      cases hcb : addItem s billId orgId pid q with
      | error e =>
        rw [hcb] at hop
        simp [Except.map] at hop
      | ok r =>
        rw [hcb] at hop
        simp only [Except.map] at hop
        cases hop
        rw [addItem_products hcb]
        exact hn
    | fin billId orgId actor now =>
      simp only [runOp] at hop
      cases hcb : finalizeBill s billId orgId actor now with
      | error e =>
        rw [hcb] at hop
        simp [Except.map] at hop
      | ok r =>
        rw [hcb] at hop
        simp only [Except.map] at hop
        cases hop
        exact finalizeBill_nonneg hcb hn
    | pay billId orgId req now =>
      simp only [runOp] at hop
      cases hcb : processPayment s billId orgId req now with
      | error e =>
        rw [hcb] at hop
        simp [Except.map] at hop
      | ok r =>
        rw [hcb] at hop
        simp only [Except.map] at hop
        cases hop
        rw [processPayment_products hcb]
        exact hn

/-- Claim C2: after any sequence of operations (in particular any
sequence of finalizes) every product's `quantity_in_stock` stays
non-negative; and a finalize of a draft bill that requests more than
the available stock of some product (all items referencing existing
products) is rejected entirely with `InsufficientStock` — the
transaction rolls back, so every product's stock is unchanged and the
bill is still draft. -/
theorem claim2_stock_invariant (s : CheckoutState) (ops : List Op)
    (hn : stocksNonnegB s.products = true) :
    stocksNonnegB (applyOps s ops).products = true ∧
    (∀ billId orgId actor now b,
      findBill s.bills billId orgId = some b →
      b.status = .draft →
      productsExistB s.products orgId b.items = true →
      insufficientExistsB s.products orgId b.items = true →
      (∃ pid, finalizeBill s billId orgId actor now = .error (.InsufficientStock pid)) ∧
        applyOp s (.fin billId orgId actor now) = s) := by
  constructor
  · induction ops generalizing s with
    | nil => exact hn
    | cons op rest ih =>
      simp only [applyOps, List.foldl_cons]
      exact ih (applyOp s op) (applyOp_products_nonneg s op hn)
  · intro billId orgId actor now b hb hd hex hbad
    obtain ⟨pid, hperr⟩ := decrementAll_insufficient
      (productsExistB_eq.mp hex) (insufficientExistsB_eq.mp hbad)
    have hne : ¬ b.items = [] := by
      obtain ⟨it0, hit0, _⟩ := insufficientExistsB_eq.mp hbad
      intro hc
      rw [hc] at hit0
      cases hit0
    have hnotfin : ¬ b.status = .finalized := by
      intro hc
      rw [hd] at hc
      cases hc
    have herr : finalizeBill s billId orgId actor now
        = .error (.InsufficientStock pid) := by
      simp only [finalizeBill, hb, hperr]
      rw [if_neg hnotfin, if_neg hne]
    refine ⟨⟨pid, herr⟩, ?_⟩
    simp [applyOp, runOp, herr, Except.map]

/-- The shortfall scenario bill: quantity 2 of product `P` requested. -/
def billW2 : Bill :=
  ⟨"b1", "org", .draft, [⟨"P", 2, 5000, 10000⟩], 10000, 0, 0, 0, 0, 0, none, none⟩

/-- The shortfall scenario state: only 1 unit of `P` in stock. -/
def stateW2 : CheckoutState := ⟨[⟨"P", "org", 5000, 1⟩], [billW2], []⟩

theorem claim2_witness :
    stocksNonnegB (applyOps stateW2 [.fin "b1" "org" "u" 3]).products = true ∧
      (∃ pid, finalizeBill stateW2 "b1" "org" "u" 3
        = .error (.InsufficientStock pid)) ∧
      applyOp stateW2 (.fin "b1" "org" "u" 3) = stateW2 ∧
      stockOf (applyOp stateW2 (.fin "b1" "org" "u" 3)).products "P" "org" = some 1 := by
  have hb : findBill stateW2.bills "b1" "org" = some billW2 := by decide
  have h := claim2_stock_invariant stateW2 [.fin "b1" "org" "u" 3] (by decide)
  obtain ⟨hrej, hunch⟩ := h.2 "b1" "org" "u" 3 billW2 hb (by decide) (by decide) (by decide)
  exact ⟨h.1, hrej, hunch, by decide⟩

/-! ## Claim C1 — subtotals, line totals and the frozen finalize formulas -/

theorem mkItems_inv (raw : List (String × Nat × Int)) :
    ∀ it ∈ mkItems raw, it.line_total = (it.quantity : Int) * it.unit_price := by
  intro it hmem
  obtain ⟨r, _, hr⟩ := List.mem_map.mp hmem
  rw [← hr]

theorem processPayment_bills {s : CheckoutState} {billId orgId : String}
    {req : PaymentReq} {now : Nat} {r : CheckoutState × Payment}
    (h : processPayment s billId orgId req now = .ok r) : r.1.bills = s.bills := by
  simp only [processPayment] at h
  split at h
  · cases h
  · split at h
    · split at h
      · cases h
      · split at h
        · split at h
          · cases h
          · cases h
            rfl
        · cases h
    · cases h

theorem applyOp_bills_inv (s : CheckoutState) (op : Op)
    (hs : billsInvariantB s.bills = true) :
    billsInvariantB (applyOp s op).bills = true := by
  rw [applyOp]
  cases hop : runOp s op with
  | error e => exact hs
  | ok s2 =>
    cases op with
    | create billId orgId dp tp raw =>
      simp only [runOp] at hop
      cases hcb : createBill s billId orgId dp tp raw with
      | error e =>
        rw [hcb] at hop
        simp [Except.map] at hop
      | ok r =>
        rw [hcb] at hop
        simp only [Except.map] at hop
        cases hop
        simp only [createBill] at hcb
        split at hcb
        · cases hcb
          rw [billsInvariantB_iff]
          intro x hx
          rcases List.mem_cons.mp hx with heq | hmem
          · rw [heq]
            exact ⟨rfl, mkItems_inv raw⟩
          · exact billsInvariantB_iff.mp hs x hmem
        · cases hcb
    | add billId orgId pid q =>
      simp only [runOp] at hop
      cases hcb : addItem s billId orgId pid q with
      | error e =>
        rw [hcb] at hop
        simp [Except.map] at hop
      | ok r =>
        rw [hcb] at hop
        simp only [Except.map] at hop
        cases hop
        simp only [addItem] at hcb
        split at hcb
        · cases hcb
        · next b hfb =>
          split at hcb
          · cases hcb
          · split at hcb
            · cases hcb
            · next p hfp =>
              cases hcb
              rw [billsInvariantB_iff]
              intro x hx
              rcases updateBill_mem hx with heq | hmem
              · rw [heq]
                exact ⟨rfl,
                  mergeItem_inv (billsInvariantB_iff.mp hs b (findBill_mem hfb)).2⟩
              · exact billsInvariantB_iff.mp hs x hmem
    | fin billId orgId actor now =>
      simp only [runOp] at hop
      cases hcb : finalizeBill s billId orgId actor now with
      | error e =>
        rw [hcb] at hop
        simp [Except.map] at hop
      | ok r =>
        rw [hcb] at hop
        simp only [Except.map] at hop
        cases hop
        simp only [finalizeBill] at hcb
        split at hcb
        · cases hcb
        · next b hfind =>
          split at hcb
          · cases hcb
            exact hs
          · split at hcb
            · cases hcb
            · split at hcb
              · cases hcb
              · cases hcb
                rw [billsInvariantB_iff]
                intro x hx
                rcases updateBill_mem hx with heq | hmem
                · rw [heq]
                  exact billsInvariantB_iff.mp hs b (findBill_mem hfind)
                · exact billsInvariantB_iff.mp hs x hmem
    | pay billId orgId req now =>
      simp only [runOp] at hop
      cases hcb : processPayment s billId orgId req now with
      | error e =>
        rw [hcb] at hop
        simp [Except.map] at hop
      | ok r =>
        rw [hcb] at hop
        simp only [Except.map] at hop
        cases hop
        rw [processPayment_bills hcb]
        exact hs

/-- Claim C1: the stored subtotal of every bill equals the sum over its
items of quantity times unit price and every line total equals quantity
times unit price — this holds for all bills and is preserved by every
operation sequence — and on a successful finalize of a draft bill the
frozen totals satisfy discount = subtotal × discount_percent / 100,
tax = (subtotal − discount) × tax_percent / 100 and
total = subtotal − discount + tax, at currency (paise) precision. -/
theorem claim1_bill_totals (s : CheckoutState) (ops : List Op)
    (hs : billsInvariantB s.bills = true) :
    billsInvariantB (applyOps s ops).bills = true ∧
    (∀ billId orgId actor now s2 b2 b,
      findBill s.bills billId orgId = some b →
      b.status = .draft →
      finalizeBill s billId orgId actor now = .ok (s2, b2) →
      b2.subtotal = subtotalOf b2.items ∧
      (∀ it ∈ b2.items, it.line_total = (it.quantity : Int) * it.unit_price) ∧
      b2.discount = roundPct b2.subtotal b2.discount_percent ∧
      b2.tax = roundPct (b2.subtotal - b2.discount) b2.tax_percent ∧
      b2.total = b2.subtotal - b2.discount + b2.tax) := by
  constructor
  · induction ops generalizing s with
    | nil => exact hs
    | cons op rest ih =>
      simp only [applyOps, List.foldl_cons]
      exact ih (applyOp s op) (applyOp_bills_inv s op hs)
  · intro billId orgId actor now s2 b2 b hb hd hfin
    have hnotfin : ¬ b.status = .finalized := by
      intro hc
      rw [hd] at hc
      cases hc
    simp only [finalizeBill, hb] at hfin
    rw [if_neg hnotfin] at hfin
    by_cases hne : b.items = []
    · rw [if_pos hne] at hfin
      cases hfin
    · rw [if_neg hne] at hfin
      cases hde : decrementAll s.products orgId b.items with
      | error e =>
        rw [hde] at hfin
        cases hfin
      | ok ps2 =>
        rw [hde] at hfin
        cases hfin
        have hinv := billsInvariantB_iff.mp hs b (findBill_mem hb)
        exact ⟨hinv.1, hinv.2, rfl, rfl, rfl⟩

/-- The BILL02 bill of `checkout-api.spec.ts`: one item at price 1000
(100000 paise), discount 10%, tax 18%. -/
def billW1 : Bill :=
  ⟨"b1", "org", .draft, [⟨"A", 1, 100000, 100000⟩], 100000, 10, 18, 0, 0, 0, none, none⟩

/-- A state holding `billW1` with 3 units of `A` in stock. -/
def stateW1 : CheckoutState := ⟨[⟨"A", "org", 100000, 3⟩], [billW1], []⟩

/-- The frozen BILL02 bill: discount 100, tax 162 (18% of 900),
total 1062 (in rupees; stored in paise). -/
def billW1f : Bill :=
  ⟨"b1", "org", .finalized, [⟨"A", 1, 100000, 100000⟩], 100000, 10, 18,
    10000, 16200, 106200, some 7, some "u"⟩

theorem claim1_witness :
    billsInvariantB (applyOps stateW1 [.create "b2" "org" 5 5 [("A", 3, 10000)]]).bills
        = true ∧
      (billW1f.subtotal = subtotalOf billW1f.items ∧
        (∀ it ∈ billW1f.items, it.line_total = (it.quantity : Int) * it.unit_price) ∧
        billW1f.discount = roundPct billW1f.subtotal billW1f.discount_percent ∧
        billW1f.tax = roundPct (billW1f.subtotal - billW1f.discount) billW1f.tax_percent ∧
        billW1f.total = billW1f.subtotal - billW1f.discount + billW1f.tax) ∧
      billW1f.total = 106200 := by
  have hs : billsInvariantB stateW1.bills = true := by decide
  have h1 := claim1_bill_totals stateW1 [.create "b2" "org" 5 5 [("A", 3, 10000)]] hs
  have hfin : finalizeBill stateW1 "b1" "org" "u" 7 = .ok
      (⟨[⟨"A", "org", 100000, 2⟩], [billW1f], []⟩, billW1f) := by decide
  have hb : findBill stateW1.bills "b1" "org" = some billW1 := by decide
  exact ⟨h1.1, h1.2 "b1" "org" "u" 7 _ billW1f billW1 hb (by decide) hfin, by decide⟩

end PantryPal
